import Mathlib

/-!
Shallow embedding of the delta AT24 EEPROM driver
(`src/platform/innovium/sonic-platform-modules-delta/evs-a-32q56/modules/delta_at24.c`).

Pure arithmetic (geometry decode, offset translation, write clamping) is
translated directly.  The retry loops and range-accessor loops are embedded as
recursions over explicit streams of bus-call results, and the EEPROM device
itself (an external collaborator: the spec only lists the three bus primitives
it answers) is modelled as a byte store with a current-address pointer.
-/

namespace DeltaAt24

/-- Flag constants from `linux/platform_data/at24.h` (external kernel header
included by the driver). -/
def AT24_FLAG_ADDR16 : Nat := 0x80

/-- `AT24_FLAG_READONLY` from `linux/platform_data/at24.h`. -/
def AT24_FLAG_READONLY : Nat := 0x40

/-- `AT24_FLAG_IRUGO` from `linux/platform_data/at24.h`. -/
def AT24_FLAG_IRUGO : Nat := 0x20

/-- `AT24_FLAG_TAKE8ADDR` from `linux/platform_data/at24.h`. -/
def AT24_FLAG_TAKE8ADDR : Nat := 0x10

/-- `AT24_FLAG_SERIAL` from `linux/platform_data/at24.h`. -/
def AT24_FLAG_SERIAL : Nat := 0x08

/-- `AT24_FLAG_MAC` from `linux/platform_data/at24.h`. -/
def AT24_FLAG_MAC : Nat := 0x04

/-- `#define AT24_SIZE_BYTELEN 5` (delta_at24.c line 98). -/
def AT24_SIZE_BYTELEN : Nat := 5

/-- `#define AT24_SIZE_FLAGS 8` (delta_at24.c line 99). -/
def AT24_SIZE_FLAGS : Nat := 8

/-- `#define AT24_BITMASK(x) (BIT(x) - 1)` (delta_at24.c line 101). -/
def AT24_BITMASK (x : Nat) : Nat := 2 ^ x - 1

/-- The relevant fields of `struct at24_platform_data` as filled in by
`at24_probe`. -/
structure At24Chip where
  byte_len : Nat
  flags : Nat
  page_size : Nat

/-- The magic-decode branch of `at24_probe` (delta_at24.c lines 422-435):
`if (!id->driver_data) return -ENODEV;` then
`chip.byte_len = BIT(magic & AT24_BITMASK(AT24_SIZE_BYTELEN)); magic >>= AT24_SIZE_BYTELEN;
 chip.flags = magic & AT24_BITMASK(AT24_SIZE_FLAGS); chip.page_size = 1;`. -/
def at24_decode_magic (magic : Nat) : Option At24Chip :=
  if magic = 0 then none
  else some { byte_len := 2 ^ (magic &&& AT24_BITMASK AT24_SIZE_BYTELEN)
            , flags := (magic >>> AT24_SIZE_BYTELEN) &&& AT24_BITMASK AT24_SIZE_FLAGS
            , page_size := 1 }

/-- `at24_get_ofdata` (delta_at24.c lines 389-402): the devicetree property
lookup that may set the READONLY flag and override `page_size`. -/
def at24_get_ofdata (chip : At24Chip) (readOnlyProp : Bool)
    (pagesizeProp : Option Nat) : At24Chip :=
  let chip1 := if readOnlyProp
    then { chip with flags := chip.flags ||| AT24_FLAG_READONLY } else chip
  match pagesizeProp with
  | some v => { chip1 with page_size := v }
  | none => chip1

/-- `DIV_ROUND_UP` from the kernel headers: `(n + d - 1) / d`. -/
def DIV_ROUND_UP (n d : Nat) : Nat := (n + d - 1) / d

/-- `at24_probe` lines 469-472: `num_addresses = 8` under TAKE8ADDR, else
`DIV_ROUND_UP(chip.byte_len, (chip.flags & AT24_FLAG_ADDR16) ? 65536 : 256)`. -/
def at24_num_addresses (chip : At24Chip) : Nat :=
  if chip.flags &&& AT24_FLAG_TAKE8ADDR ≠ 0 then 8
  else DIV_ROUND_UP chip.byte_len
    (if chip.flags &&& AT24_FLAG_ADDR16 ≠ 0 then 65536 else 256)

/-- `at24_translate_offset` (delta_at24.c lines 162-176), returning the client
index `i` together with the adjusted in-chip offset. -/
def at24_translate_offset (flags offset : Nat) : Nat × Nat :=
  if flags &&& AT24_FLAG_ADDR16 ≠ 0 then (offset >>> 16, offset &&& 0xffff)
  else (offset >>> 8, offset &&& 0xff)

/-- Kernel `rounddown_pow_of_two(n) = 1UL << ilog2(n)` for `n > 0`. -/
def rounddown_pow_of_two (n : Nat) : Nat := 2 ^ Nat.log2 n

/-- `delta_at24_init` (delta_at24.c lines 617-629): reject `io_limit == 0`
with `-EINVAL` (-22), else normalize `io_limit = rounddown_pow_of_two(io_limit)`. -/
def delta_at24_init (io_limit : Nat) : Except Int Nat :=
  if io_limit = 0 then .error (-22) else .ok (rounddown_pow_of_two io_limit)

/-- Kernel `roundup(x, y) = ((x + y - 1) / y) * y`. -/
def roundup (x y : Nat) : Nat := (x + y - 1) / y * y

/-- The count clamping of `at24_eeprom_write` (delta_at24.c lines 306-312):
`if (count > write_max) count = write_max;
 next_page = roundup(offset + 1, page_size);
 if (offset + count > next_page) count = next_page - offset;`. -/
def at24_write_clamp (count write_max offset page_size : Nat) : Nat :=
  let c := if count > write_max then write_max else count
  let next_page := roundup (offset + 1) page_size
  if offset + c > next_page then next_page - offset else c

/-- One iteration of the `at24_eeprom_read` retry loop: the jiffies value
sampled at the top of the iteration (`read_time = jiffies`, line 218) and the
statuses returned by the two bus calls of lines 220-221
(`i2c_smbus_write_byte_data` then `i2c_smbus_read_byte`). -/
structure ReadAttempt where
  time : Nat
  wres : Int
  rres : Int

/-- Outcome of the single-byte read: the returned byte (`buf[0] = status`,
return `count` = 1) or `-ETIMEDOUT`. -/
inductive ReadOutcome where
  | ok (b : Int)
  | timedOut
  deriving DecidableEq

/-- The `do`-`while` retry loop of `at24_eeprom_read` (delta_at24.c lines
216-236).  `timeout` is the precomputed deadline
`jiffies + msecs_to_jiffies(write_timeout)` (line 216).  Each iteration does
`status = i2c_smbus_write_byte_data(...); status = i2c_smbus_read_byte(client);`
(the first status is overwritten by the second), then on `status >= 0` stores
the byte and returns `count` (= 1); otherwise it sleeps and loops while
`time_before(read_time, timeout)`.  Returns `none` only if the attempt stream
runs out before the deadline passes (a model artifact; theorems supply enough
attempts). -/
def at24_read_retry (timeout : Nat) : List ReadAttempt → Option ReadOutcome
  | [] => none
  | a :: rest =>
    if 0 ≤ a.rres then some (.ok a.rres)
    else if a.time < timeout then at24_read_retry timeout rest
    else some .timedOut

/-- The shared accumulation loop of `at24_read` (delta_at24.c lines 255-268)
and `at24_write` (lines 353-366): while `count` is nonzero, take the next
`at24_eeprom_read` / `at24_eeprom_write` status from `steps`; on
`status <= 0` return `status` if nothing was moved yet, else the accumulated
`retval`; on success advance by `status`. -/
def at24_access_loop : List Int → Nat → Int → Int
  | _, 0, retval => retval
  | [], _ + 1, retval => retval
  | s :: rest, c + 1, retval =>
    if s ≤ 0 then (if retval = 0 then s else retval)
    else at24_access_loop rest (c + 1 - s.toNat) (retval + s)

/-- Total of the (positive) statuses of a step list, as the bytes moved. -/
def posSum (l : List Int) : Nat := (l.map Int.toNat).sum

/-- The buffer effect of the `at24_read` loop (delta_at24.c lines 255-268):
each successful `at24_eeprom_read` stores one byte through the advancing `buf`
cursor (`buf[0] = status; ... buf += status`), a failing step stops the loop.
A step is `some b` when the transfer engine delivered byte `b`, `none` when it
failed. -/
def at24_read_fill : List (Option Nat) → List Nat → List Nat
  | some b :: rest, _ :: buf => b :: at24_read_fill rest buf
  | _, buf => buf

/-- `at24_read` (delta_at24.c lines 239-273) as seen by the caller's buffer of
length `count`: the buffer is zero-filled first (`memset(buf, 0, count)`,
line 247), then the loop overwrites a prefix with the transferred bytes. -/
def at24_read_buffer (steps : List (Option Nat)) (count : Nat) : List Nat :=
  at24_read_fill steps (List.replicate count 0)

/-- Number of successful transfer steps before the first failure: the bytes
moved before the `at24_read` loop stops. -/
def leadOk : List (Option Nat) → Nat
  | some _ :: rest => leadOk rest + 1
  | _ => 0

/-- `at24_bin_write` (delta_at24.c lines 373-384): reject
`off >= attr->size` with `-EFBIG` (-27) before anything else; otherwise
delegate to `at24_write` (whose result is the `delegate` argument). -/
def at24_bin_write (size off count : Nat) (delegate : Int) : Int :=
  if size ≤ off then -27 else delegate

/-- Modelled from the spec: the EEPROM device behind the bus primitives of
section 6 ("write command byte(s) to set current address", "read current
byte", "write word (address+data) in one transaction"), for a chip with
16-bit in-chip addressing: a byte store indexed by in-chip address plus the
chip's current-address pointer. -/
structure EepromDev where
  mem : Nat → Nat
  ptr : Nat

/-- Modelled from the spec: `i2c_smbus_write_byte_data(client, cmd, d)` as
received by a ready 16-bit-addressing EEPROM: the two bytes on the wire set
the current address to `cmd * 256 + d`; status 0. -/
def i2c_smbus_write_byte_data (dev : EepromDev) (cmd d : Nat) :
    EepromDev × Int :=
  ({ dev with ptr := (cmd &&& 255) * 256 + (d &&& 255) }, 0)

/-- Modelled from the spec: `i2c_smbus_read_byte(client)` on a ready EEPROM:
returns the byte at the current address and advances the pointer. -/
def i2c_smbus_read_byte (dev : EepromDev) : EepromDev × Int :=
  ({ dev with ptr := dev.ptr + 1 }, Int.ofNat (dev.mem dev.ptr))

/-- Modelled from the spec: `i2c_smbus_write_word_data(client, cmd, w)` on a
ready 16-bit-addressing EEPROM: the three bytes on the wire
(`cmd`, low byte of `w`, high byte of `w`) set the current address from the
first two and store the third there; status 0. -/
def i2c_smbus_write_word_data (dev : EepromDev) (cmd w : Nat) :
    EepromDev × Int :=
  let addr := (cmd &&& 255) * 256 + (w &&& 255)
  ({ mem := fun a => if a = addr then (w >>> 8) &&& 255 else dev.mem a
   , ptr := addr + 1 }, 0)

/-- `at24_eeprom_write` (delta_at24.c lines 294-337) against a ready device
(first attempt succeeds): translate the offset, clamp the count, then issue
the single bus transaction of line 323:
`i2c_smbus_write_word_data(client, (offset >> 8) & 0x0ff, (offset & 0xFF) | buf[0])`;
on status 0 return the clamped count. -/
def at24_eeprom_write (flags write_max page_size : Nat) (dev : EepromDev)
    (offset b : Nat) (count : Nat) : EepromDev × Int :=
  let off := (at24_translate_offset flags offset).2
  let c := at24_write_clamp count write_max off page_size
  let r := i2c_smbus_write_word_data dev ((off >>> 8) &&& 255) ((off &&& 255) ||| b)
  (r.1, if r.2 = 0 then (c : Int) else r.2)

/-- `at24_write` (delta_at24.c lines 339-371) against a ready device: write
the data bytes one at a time (the loop passes count 1 at line 356), advancing
the offset and buffer cursor by each returned status. -/
def at24_write (flags write_max page_size : Nat) :
    EepromDev → Nat → List Nat → EepromDev
  | dev, _, [] => dev
  | dev, offset, b :: rest =>
    let r := at24_eeprom_write flags write_max page_size dev offset b 1
    if r.2 ≤ 0 then r.1
    else at24_write flags write_max page_size r.1 (offset + r.2.toNat) rest

/-- `at24_eeprom_read` (delta_at24.c lines 178-237) against a ready device:
translate the offset, set the in-chip address with
`i2c_smbus_write_byte_data(client, (offset >> 8) & 0x0ff, offset & 0x0ff)`
(line 220), then read the current byte (line 221). -/
def at24_eeprom_read (flags : Nat) (dev : EepromDev) (offset : Nat) :
    EepromDev × Int :=
  let off := (at24_translate_offset flags offset).2
  let r := i2c_smbus_write_byte_data dev ((off >>> 8) &&& 255) (off &&& 255)
  i2c_smbus_read_byte r.1

/-- `at24_read` (delta_at24.c lines 239-273) against a ready device: read
`count` bytes one at a time, advancing the offset by 1 per returned status. -/
def at24_read (flags : Nat) : EepromDev → Nat → Nat → EepromDev × List Int
  | dev, _, 0 => (dev, [])
  | dev, offset, c + 1 =>
    let r := at24_eeprom_read flags dev offset
    let rest := at24_read flags r.1 (offset + 1) c
    (rest.1, r.2 :: rest.2)

/-- The all-zero device used as the concrete round-trip input. -/
def zeroDev : EepromDev := { mem := fun _ => 0, ptr := 0 }

/- ## Helper lemmas -/

/-- If `a < n` then `a / d` stays below `DIV_ROUND_UP n d`. -/
lemma div_lt_div_round_up {a n d : Nat} (hd : 0 < d) (h : a < n) :
    a / d < DIV_ROUND_UP n d := by
  have h1 : n + d - 1 = (n - 1) + d := by omega
  have h2 : DIV_ROUND_UP n d = (n - 1) / d + 1 := by
    rw [DIV_ROUND_UP, h1, Nat.add_div_right _ hd]
  have h3 : a / d ≤ (n - 1) / d := Nat.div_le_div_right (by omega)
  rw [h2]
  exact Nat.lt_succ_of_le h3

/-- `x ≤ roundup x y` for positive `y`. -/
lemma le_roundup (x : Nat) {y : Nat} (hy : 0 < y) : x ≤ roundup x y := by
  rcases Nat.eq_zero_or_pos x with hx | hx
  · subst hx
    exact Nat.zero_le _
  · have h1 : x + y - 1 = (x - 1) + y := by omega
    have h2 : (x - 1 + y) / y = (x - 1) / y + 1 := Nat.add_div_right _ hy
    have h3 : y * ((x - 1) / y) + (x - 1) % y = x - 1 := Nat.div_add_mod _ _
    have h4 : (x - 1) % y < y := Nat.mod_lt _ hy
    have h5 : roundup x y = ((x - 1) / y + 1) * y := by rw [roundup, h1, h2]
    have h6 : ((x - 1) / y + 1) * y = y * ((x - 1) / y) + y := by ring
    rw [h5, h6]
    set p := y * ((x - 1) / y) with hp
    omega

/-- `Nat.log2 100 = 6`, via the characterization of `Nat.log`. -/
lemma log2_hundred : Nat.log2 100 = 6 := by
  rw [Nat.log2_eq_log_two]
  exact Nat.log_eq_of_pow_le_of_lt_pow (by norm_num) (by norm_num)

/- ## Theorems -/

/-- C3: for every geometry `(byte_capacity, ADDR16 flag)` (any flag word with
TAKE8ADDR clear) and every offset below `byte_capacity`, the address
translator computes `(offset >> 16, offset & 0xFFFF)` under ADDR16 and
`(offset >> 8, offset & 0xFF)` otherwise, the alias index is below
`num_addresses`, and the in-chip offset is below the per-address span. -/
theorem at24_translate_offset_bounds (byte_len flags offset : Nat)
    (h8 : flags &&& AT24_FLAG_TAKE8ADDR = 0) (h : offset < byte_len) :
    at24_translate_offset flags offset =
      (if flags &&& AT24_FLAG_ADDR16 ≠ 0 then (offset >>> 16, offset &&& 0xffff)
       else (offset >>> 8, offset &&& 0xff)) ∧
    (at24_translate_offset flags offset).1 <
      at24_num_addresses { byte_len := byte_len, flags := flags, page_size := 1 } ∧
    (at24_translate_offset flags offset).2 <
      (if flags &&& AT24_FLAG_ADDR16 ≠ 0 then 65536 else 256) := by
  have hnum : at24_num_addresses { byte_len := byte_len, flags := flags, page_size := 1 } =
      DIV_ROUND_UP byte_len (if flags &&& AT24_FLAG_ADDR16 ≠ 0 then 65536 else 256) := by
    rw [at24_num_addresses, if_neg (by simp [h8])]
  refine ⟨rfl, ?_, ?_⟩
  · rw [hnum]
    by_cases h16 : flags &&& AT24_FLAG_ADDR16 ≠ 0
    · rw [if_pos h16]
      simp only [at24_translate_offset, if_pos h16, Nat.shiftRight_eq_div_pow]
      exact div_lt_div_round_up (by norm_num) h
    · rw [if_neg h16]
      simp only [at24_translate_offset, if_neg h16, Nat.shiftRight_eq_div_pow]
      exact div_lt_div_round_up (by norm_num) h
  · by_cases h16 : flags &&& AT24_FLAG_ADDR16 ≠ 0
    · rw [if_pos h16]
      simp only [at24_translate_offset, if_pos h16]
      have h1 : offset &&& 0xffff < 2 ^ 16 := Nat.and_lt_two_pow offset (by norm_num)
      simpa using h1
    · rw [if_neg h16]
      simp only [at24_translate_offset, if_neg h16]
      have h1 : offset &&& 0xff < 2 ^ 8 := Nat.and_lt_two_pow offset (by norm_num)
      simpa using h1

/-- Witness for C3: a 70000-byte ADDR16 geometry at offset 69999. -/
theorem at24_translate_offset_bounds_witness :
    (at24_translate_offset 128 69999).1 <
      at24_num_addresses { byte_len := 70000, flags := 128, page_size := 1 } :=
  (at24_translate_offset_bounds 70000 128 69999 (by decide) (by decide)).2.1

/-- C6: `num_addresses` is 8 under TAKE8ADDR regardless of capacity, otherwise
`DIV_ROUND_UP(byte_len, span)` with span 65536 under ADDR16 and 256 otherwise,
and is at least 1 whenever `byte_len > 0`. -/
theorem at24_num_addresses_spec (chip : At24Chip) :
    (chip.flags &&& AT24_FLAG_TAKE8ADDR ≠ 0 → at24_num_addresses chip = 8) ∧
    (chip.flags &&& AT24_FLAG_TAKE8ADDR = 0 →
      at24_num_addresses chip = DIV_ROUND_UP chip.byte_len
        (if chip.flags &&& AT24_FLAG_ADDR16 ≠ 0 then 65536 else 256)) ∧
    (0 < chip.byte_len → 1 ≤ at24_num_addresses chip) := by
  refine ⟨fun h => by rw [at24_num_addresses, if_pos h],
          fun h => by rw [at24_num_addresses, if_neg (by simp [h])],
          fun hb => ?_⟩
  rw [at24_num_addresses]
  by_cases h : chip.flags &&& AT24_FLAG_TAKE8ADDR ≠ 0
  · rw [if_pos h]
    omega
  · rw [if_neg h]
    have hd : (0:Nat) < (if chip.flags &&& AT24_FLAG_ADDR16 ≠ 0 then 65536 else 256) := by
      split <;> norm_num
    rw [DIV_ROUND_UP, Nat.le_div_iff_mul_le hd, Nat.one_mul]
    omega

/-- Witness for C6: the TAKE8ADDR entry (24c00, 16 bytes) yields 8 addresses. -/
theorem at24_num_addresses_spec_witness :
    at24_num_addresses { byte_len := 16, flags := 16, page_size := 1 } = 8 :=
  (at24_num_addresses_spec { byte_len := 16, flags := 16, page_size := 1 }).1
    (by decide)

/-- C7: a nonzero magic decodes to `byte_len = 2^(magic & 31)` (5-bit length
field), `flags = (magic >> 5) & 255` and default `page_size = 1`; a pagesize
property override replaces `page_size` while no override leaves it; magic zero
fails with a configuration error (`-ENODEV`); decode is deterministic. -/
theorem at24_decode_magic_spec :
    (∀ magic : Nat, magic ≠ 0 → at24_decode_magic magic =
      some { byte_len := 2 ^ (magic &&& 31)
           , flags := (magic >>> 5) &&& 255
           , page_size := 1 }) ∧
    at24_decode_magic 0 = none ∧
    (∀ chip ro v, (at24_get_ofdata chip ro (some v)).page_size = v) ∧
    (∀ chip ro, (at24_get_ofdata chip ro none).page_size = chip.page_size) ∧
    (∀ magic : Nat, at24_decode_magic magic = at24_decode_magic magic) := by
  refine ⟨fun m hm => ?_, rfl, fun chip ro v => ?_, fun chip ro => ?_,
          fun _ => rfl⟩
  · rw [at24_decode_magic, if_neg hm]
    exact rfl
  · cases ro <;> rfl
  · cases ro <;> rfl

/-- Witness for C7: the 24c128 magic `0x300E` decodes as stated. -/
theorem at24_decode_magic_spec_witness :
    at24_decode_magic 12302 =
      some { byte_len := 2 ^ (12302 &&& 31)
           , flags := (12302 >>> 5) &&& 255
           , page_size := 1 } :=
  at24_decode_magic_spec.1 12302 (by decide)

/-- C8: a write at offset at or beyond the exposed size fails with `-EFBIG`
independently of what the delegated write would return (so before any lock or
bus activity), while offset `size - 1` passes the bound check and returns the
delegated result. -/
theorem at24_bin_write_bound_check (size off count : Nat) (delegate : Int) :
    (size ≤ off → at24_bin_write size off count delegate = -27) ∧
    (0 < size → at24_bin_write size (size - 1) 1 delegate = delegate) := by
  constructor
  · intro h
    rw [at24_bin_write, if_pos h]
  · intro h
    rw [at24_bin_write, if_neg (by omega)]

/-- Witness for C8: size 256, rejected at offset 256, passed at offset 255. -/
theorem at24_bin_write_bound_check_witness :
    at24_bin_write 256 256 7 3 = -27 ∧ at24_bin_write 256 255 1 3 = 3 :=
  ⟨(at24_bin_write_bound_check 256 256 7 3).1 (by norm_num),
   (at24_bin_write_bound_check 256 0 1 3).2 (by norm_num)⟩

/-- C9: module init rejects `io_limit = 0` with `-EINVAL`, and normalizes any
nonzero `io_limit` to the largest power of two not exceeding it; in
particular 100 becomes 64. -/
theorem delta_at24_init_spec :
    delta_at24_init 0 = .error (-22) ∧
    (∀ n : Nat, 0 < n →
      delta_at24_init n = .ok (2 ^ Nat.log2 n) ∧
      2 ^ Nat.log2 n ≤ n ∧ n < 2 ^ (Nat.log2 n + 1)) ∧
    delta_at24_init 100 = .ok 64 := by
  refine ⟨rfl, fun n hn => ⟨?_, ?_, ?_⟩, ?_⟩
  · rw [delta_at24_init, if_neg (by omega)]
    rfl
  · rw [Nat.log2_eq_log_two]
    exact Nat.pow_log_le_self 2 (by omega)
  · rw [Nat.log2_eq_log_two]
    exact Nat.lt_pow_succ_log_self (by norm_num) n
  · have h : delta_at24_init 100 = .ok (2 ^ Nat.log2 100) := by
      rw [delta_at24_init, if_neg (by norm_num)]
      rfl
    rw [h, log2_hundred]
    norm_num

/-- Witness for C9: `io_limit = 3` normalizes to `2 ^ log2 3` with the
power-of-two bracketing. -/
theorem delta_at24_init_spec_witness :
    delta_at24_init 3 = .ok (2 ^ Nat.log2 3) ∧
    2 ^ Nat.log2 3 ≤ 3 ∧ 3 < 2 ^ (Nat.log2 3 + 1) :=
  delta_at24_init_spec.2.1 3 (by norm_num)

/-- C4: the accepted count of a single `at24_eeprom_write` equals
`min(count, write_max)` further truncated at `next_page = roundup(offset+1,
page_size)`; the write never crosses that boundary, and a boundary-spanning
request ends exactly at the boundary. -/
theorem at24_write_clamp_spec (count write_max offset page_size : Nat)
    (hp : 0 < page_size) :
    at24_write_clamp count write_max offset page_size =
      (if roundup (offset + 1) page_size < offset + min count write_max
       then roundup (offset + 1) page_size - offset
       else min count write_max) ∧
    offset + at24_write_clamp count write_max offset page_size ≤
      roundup (offset + 1) page_size ∧
    (roundup (offset + 1) page_size < offset + min count write_max →
      offset + at24_write_clamp count write_max offset page_size =
        roundup (offset + 1) page_size) := by
  have hnp : offset + 1 ≤ roundup (offset + 1) page_size := le_roundup _ hp
  have hmin : (if count > write_max then write_max else count) =
      min count write_max := by
    rw [Nat.min_def]
    split <;> split <;> omega
  have e : at24_write_clamp count write_max offset page_size =
      (if roundup (offset + 1) page_size < offset + min count write_max
       then roundup (offset + 1) page_size - offset
       else min count write_max) := by
    simp only [at24_write_clamp, hmin]
  refine ⟨e, ?_, ?_⟩
  · rw [e]
    split <;> omega
  · intro hgt
    rw [e, if_pos hgt]
    omega

/-- Witness for C4: count 10, write_max 8, offset 5, page 4. -/
theorem at24_write_clamp_spec_witness :
    5 + at24_write_clamp 10 8 5 4 ≤ roundup (5 + 1) 4 :=
  (at24_write_clamp_spec 10 8 5 4 (by norm_num)).2.1

/-- Invariant of the accumulation loop: with retval `r`, positive steps `pre`
followed by a failing step `e`, and enough remaining count, the loop returns
`e` when nothing at all was accumulated and the total moved otherwise. -/
lemma at24_access_loop_go (e : Int) (post pre : List Int) :
    ∀ (count r : Nat), (∀ s ∈ pre, 0 < s) → e ≤ 0 → posSum pre < count →
      at24_access_loop (pre ++ e :: post) count (r : Int) =
        if r + posSum pre = 0 then e else ((r + posSum pre : Nat) : Int) := by
  induction pre with
  | nil =>
    intro count r _ he hc
    have hc1 : 1 ≤ count := by
      simp only [posSum, List.map_nil, List.sum_nil] at hc
      omega
    obtain ⟨c, rfl⟩ : ∃ c, count = c + 1 := ⟨count - 1, by omega⟩
    simp only [List.nil_append, posSum, List.map_nil, List.sum_nil,
      Nat.add_zero]
    rw [at24_access_loop, if_pos he]
    by_cases hr : r = 0
    · subst hr
      simp
    · rw [if_neg (by exact_mod_cast hr), if_neg hr]
  | cons s pre ih =>
    intro count r hpre he hc
    have hs : 0 < s := hpre s (by simp)
    have hsum : posSum (s :: pre) = s.toNat + posSum pre := by
      simp [posSum]
    have hst : 1 ≤ s.toNat := by omega
    rw [hsum] at hc
    obtain ⟨c, rfl⟩ : ∃ c, count = c + 1 := ⟨count - 1, by omega⟩
    simp only [List.cons_append]
    rw [at24_access_loop, if_neg (by omega)]
    have hcast : (r : Int) + s = ((r + s.toNat : Nat) : Int) := by
      push_cast
      omega
    rw [hcast, ih (c + 1 - s.toNat) (r + s.toNat)
      (fun x hx => hpre x (List.mem_cons_of_mem _ hx)) he (by omega)]
    rw [hsum]
    have harr : r + s.toNat + posSum pre = r + (s.toNat + posSum pre) := by
      omega
    rw [harr]

/-- A nonempty list of positive statuses moves a positive number of bytes. -/
lemma posSum_pos (pre : List Int) (hpre : ∀ s ∈ pre, 0 < s) (hne : pre ≠ []) :
    0 < posSum pre := by
  cases pre with
  | nil => exact absurd rfl hne
  | cons s rest =>
    have hs : 0 < s := hpre s (by simp)
    simp only [posSum, List.map_cons, List.sum_cons]
    omega

/-- C5: in the range-accessor loop, if the constituent transfer calls succeed
with positive statuses `pre` and then one fails (status `e ≤ 0`) while the
request is not yet satisfied, the loop returns the error `e` when zero bytes
were moved and the positive count of bytes moved otherwise. -/
theorem at24_access_loop_short (pre : List Int) (e : Int) (post : List Int)
    (count : Nat) (hpre : ∀ s ∈ pre, 0 < s) (he : e ≤ 0)
    (hc : posSum pre < count) :
    at24_access_loop (pre ++ e :: post) count 0 =
      (if pre = [] then e else (posSum pre : Int)) ∧
    (pre ≠ [] → 0 < at24_access_loop (pre ++ e :: post) count 0) := by
  have h0 := at24_access_loop_go e post pre count 0 hpre he hc
  simp only [Nat.cast_zero, Nat.zero_add] at h0
  by_cases hne : pre = []
  · subst hne
    simp only [posSum, List.map_nil, List.sum_nil] at h0
    constructor
    · rw [if_pos rfl]
      simpa using h0
    · intro habs
      exact absurd rfl habs
  · have hpos := posSum_pos pre hpre hne
    have h1 : at24_access_loop (pre ++ e :: post) count 0 = (posSum pre : Int) := by
      rw [h0, if_neg (by omega)]
    constructor
    · rw [if_neg hne]
      exact h1
    · intro _
      rw [h1]
      exact_mod_cast hpos

/-- Witness for C5: one byte moved, then a failure; the loop returns 1. -/
theorem at24_access_loop_short_witness :
    0 < at24_access_loop ([(1 : Int)] ++ (-110) :: []) 3 0 :=
  (at24_access_loop_short [1] (-110) [] 3 (by decide) (by decide)
    (by decide)).2 (by decide)

/-- `at24_read_fill` keeps the buffer length. -/
lemma at24_read_fill_length :
    ∀ (steps : List (Option Nat)) (buf : List Nat),
      (at24_read_fill steps buf).length = buf.length := by
  intro steps
  induction steps with
  | nil => intro buf; rfl
  | cons s rest ih =>
    intro buf
    cases s with
    | none => rfl
    | some b =>
      cases buf with
      | nil => rfl
      | cons x buf' =>
        simp only [at24_read_fill, List.length_cons, ih buf']

/-- `at24_read_fill` leaves entries past the moved bytes untouched. -/
lemma at24_read_fill_getD (d : Nat) :
    ∀ (steps : List (Option Nat)) (buf : List Nat) (i : Nat),
      leadOk steps ≤ i →
      (at24_read_fill steps buf).getD i d = buf.getD i d := by
  intro steps
  induction steps with
  | nil => intro buf i _; rfl
  | cons s rest ih =>
    intro buf i hle
    cases s with
    | none => rfl
    | some b =>
      cases buf with
      | nil => rfl
      | cons x buf' =>
        have hlead : leadOk (some b :: rest) = leadOk rest + 1 := rfl
        obtain ⟨j, rfl⟩ : ∃ j, i = j + 1 := ⟨i - 1, by omega⟩
        simp only [at24_read_fill, List.getD_cons_succ]
        exact ih buf' j (by omega)

/-- Entries of a zero-filled buffer are zero. -/
lemma replicate_zero_getD :
    ∀ (count i : Nat), i < count →
      (List.replicate count (0 : Nat)).getD i 1 = 0 := by
  intro count
  induction count with
  | zero => intro i h; omega
  | succ c ih =>
    intro i h
    cases i with
    | zero => rfl
    | succ j =>
      simp only [List.replicate, List.getD_cons_succ]
      exact ih j (by omega)

/-- C10: the `at24_read` destination buffer has length `count` and, after the
loop stops with `k` bytes moved (`k = leadOk steps`, including a failure with
partial or zero progress), every byte at index `k` or beyond is zero, because
the buffer was zero-filled before any transfer. -/
theorem at24_read_zero_fill (steps : List (Option Nat)) (count : Nat) :
    (at24_read_buffer steps count).length = count ∧
    (∀ i, leadOk steps ≤ i → i < count →
      (at24_read_buffer steps count).getD i 1 = 0) := by
  constructor
  · rw [at24_read_buffer, at24_read_fill_length, List.length_replicate]
  · intro i h1 h2
    rw [at24_read_buffer, at24_read_fill_getD 1 steps _ i h1,
      replicate_zero_getD count i h2]

/-- Witness for C10: one byte moved out of three; index 1 is zero. -/
theorem at24_read_zero_fill_witness :
    (at24_read_buffer [some 7, none] 3).getD 1 1 = 0 :=
  (at24_read_zero_fill [some 7, none] 3).2 1 (by decide) (by decide)

/-- C2 counterexample: in an attempt whose set-current-address write fails
(status -5) while the read-current-byte succeeds (byte 7), the engine still
returns the byte and stops on the first iteration — the claim that it stops
only when both primitives succeed is false, because the write's status is
overwritten (delta_at24.c lines 220-221). -/
theorem at24_read_retry_ignores_addr_write_failure :
    (ReadAttempt.mk 0 (-5) 7).wres < 0 ∧
    at24_read_retry 25 [ReadAttempt.mk 0 (-5) 7] = some (ReadOutcome.ok 7) := by
  constructor
  · decide
  · rfl

/-- C2 (amended): the engine returns the byte and stops exactly when the
read-current-byte primitive succeeds (the set-current-address write's status
is discarded); when the read fails it retries while the iteration's start
time is before the deadline, and fails with Timeout once it is not. -/
theorem at24_read_retry_spec (timeout : Nat) (a : ReadAttempt)
    (rest : List ReadAttempt) :
    (0 ≤ a.rres →
      at24_read_retry timeout (a :: rest) = some (.ok a.rres)) ∧
    (a.rres < 0 → a.time < timeout →
      at24_read_retry timeout (a :: rest) = at24_read_retry timeout rest) ∧
    (a.rres < 0 → timeout ≤ a.time →
      at24_read_retry timeout (a :: rest) = some .timedOut) := by
  refine ⟨fun h => ?_, fun h1 h2 => ?_, fun h1 h2 => ?_⟩
  · rw [at24_read_retry, if_pos h]
  · rw [at24_read_retry, if_neg (by omega), if_pos h2]
  · rw [at24_read_retry, if_neg (by omega), if_neg (by omega)]

/-- Witness for C2: a first-iteration success returns the byte. -/
theorem at24_read_retry_spec_witness :
    at24_read_retry 25 [ReadAttempt.mk 3 0 9] = some (ReadOutcome.ok 9) :=
  (at24_read_retry_spec 25 (ReadAttempt.mk 3 0 9) []).1 (by decide)

/-- C1: the round-trip fails — writing byte 5 at offset 0 of an all-zero
ADDR16 device (page size 1, write_max 1) and reading one byte back at offset
0 yields byte 0, not 5: the write transaction of line 323 ORs the data byte
into the low address byte and sends 0 as the data byte, so the written value
never reaches the device. -/
theorem at24_roundtrip_write_byte_lost :
    (at24_read AT24_FLAG_ADDR16
        (at24_write AT24_FLAG_ADDR16 1 1 zeroDev 0 [5]) 0 1).2 = [(0 : Int)] ∧
    (0 : Int) ≠ 5 := by
  constructor
  · rfl
  · decide

end DeltaAt24
